import Mathlib

/-!
Verification development for `scripts/xr_loopback_set.py`.

The script's core (identifier normalization, per-interface state probing,
emptiness classification, rollback synthesis, and the rollback-file codec)
is embedded here at the character level: Python strings become `List Char`,
`Optional[str]` becomes `Option (List Char)`, and functions that raise
become `Option`-valued.  Python's `str.strip`/`lstrip`/`rstrip`,
`str.isdigit` (restricted to ASCII digits, the only digits relevant to the
script's inputs), `str.startswith`, slicing, and `int()` are modelled by
the explicit character-list helpers below.  `str.splitlines` and text-mode
file reading are modelled by splitting on a line feed after translating
the universal-newline forms CR LF and CR to LF.
-/

set_option maxRecDepth 100000

/-- Python `str.lstrip()`: drop leading whitespace characters. -/
def pyLstrip (l : List Char) : List Char := l.dropWhile Char.isWhitespace

/-- Python `str.rstrip()`: drop trailing whitespace characters. -/
def pyRstrip (l : List Char) : List Char := (l.reverse.dropWhile Char.isWhitespace).reverse

/-- Python `str.strip()`: drop leading and trailing whitespace characters. -/
def pyStrip (l : List Char) : List Char := pyRstrip (pyLstrip l)

/-- Python `str.isdigit()` on ASCII text: nonempty and every character an ASCII digit. -/
def pyIsdigit (l : List Char) : Bool :=
  !l.isEmpty && l.all (fun c => ("0123456789".toList).contains c)

/-- Python `int()` applied to an all-ASCII-digit string. -/
def digitsToNat (l : List Char) : Nat := l.foldl (fun a c => 10 * a + (c.toNat - 48)) 0

/-- The function `normalize_loopback` (xr_loopback_set.py, lines 52-62): strip the input;
if it starts, case-insensitively, with "loopback", require an all-digit
suffix and return `Loopback` followed by the re-parsed integer; otherwise
require the whole (stripped) input to be digits and prefix it with
`Loopback`.  A `ValueError` in the source is `none` here. -/
def normalize_loopback (name_or_id : List Char) : Option (List Char) :=
  let n := pyStrip name_or_id
  if ("loopback".toList).isPrefixOf (n.map Char.toLower) then
    let suffix := n.drop 8
    if pyIsdigit suffix then
      some ("Loopback".toList ++ (Nat.repr (digitsToNat suffix)).toList)
    else none
  else if pyIsdigit n then
    some ("Loopback".toList ++ (Nat.repr (digitsToNat n)).toList)
  else none

/-- The structured snapshot returned by `get_interface_state`: the Python
dict `{'exists': bool, 'description': Optional[str], 'lines': List[str]}`.
The `exists` key is rendered as `exs` because `exists` is a Lean keyword. -/
structure EntityState where
  exs : Bool
  description : Option (List Char)
  lines : List (List Char)
  deriving DecidableEq, Repr

/-- Universal-newline translation performed by Python's text-mode file
reading and `str.splitlines`: CR LF and lone CR both become LF. -/
def normNl : List Char → List Char
  | [] => []
  | c :: rest =>
    if c = '\r' then
      match rest with
      | '\n' :: rest2 => '\n' :: normNl rest2
      | [] => ['\n']
      | c2 :: rest2 => '\n' :: normNl (c2 :: rest2)
    else c :: normNl rest

/-- Split a character list at every line feed; the separators are consumed.
`splitNl l` always has one more element than `l` has line feeds. -/
def splitNl : List Char → List (List Char)
  | [] => [[]]
  | c :: rest =>
    match splitNl rest with
    | [] => [[]]
    | l :: ls => if c = '\n' then [] :: l :: ls else (c :: l) :: ls

/-- Python `str.splitlines()`: split at line terminators (after
universal-newline translation); a trailing terminator does not produce a
final empty line. -/
def pySplitlines (l : List Char) : List (List Char) :=
  match splitNl (normNl l) with
  | [] => []
  | parts => if parts.getLast? = some [] then parts.dropLast else parts

/-- The probe loop of `get_interface_state` (lines 148-153): walk the
stanza's sub-lines, left-strip each, collect them, and record the
description remainder whenever a line starts with `description ` (each
match overwrites the previous one, as the Python assignment does).  The
second argument threads the current value of the `description` variable. -/
def probeSubs : List (List Char) → Option (List Char) → Option (List Char) × List (List Char)
  | [], d => (d, [])
  | ln :: rest, d =>
    let raw := pyLstrip ln
    let d1 := if ("description ".toList).isPrefixOf raw then some (pyStrip (raw.drop 12)) else d
    let r := probeSubs rest d1
    (r.1, raw :: r.2)

/-- The function `get_interface_state` (lines 128-155), with the probed device text as
input: split the raw text into lines, drop blank lines and right-strip the
rest; if the first surviving line starts with `interface `, the stanza
exists and the remaining lines are processed by `probeSubs`. -/
def get_interface_state (text : List Char) : EntityState :=
  match ((pySplitlines text).filter (fun ln => !(pyStrip ln).isEmpty)).map pyRstrip with
  | [] => ⟨false, none, []⟩
  | first :: rest =>
    if ("interface ".toList).isPrefixOf first then
      ⟨true, (probeSubs rest none).1, (probeSubs rest none).2⟩
    else ⟨false, none, []⟩

/-- The classifier `is_empty_loopback` (lines 158-167): a stanza is "empty" when it has no
sub-lines, or every sub-line is the empty string (Python falsiness) or
starts with `description `. -/
def is_empty_loopback (sub_lines : List (List Char)) : Bool :=
  if sub_lines.isEmpty then true
  else sub_lines.all (fun ln => ln.isEmpty || ("description ".toList).isPrefixOf ln)

/-- The body of the per-change loop of `generate_rollback_for_pairs`
(lines 187-206): the command block contributed by one change, given the
entity's pre-change snapshot.  `if desc:` in the source is Python
truthiness, so both `None` and the empty string fall to `no description`. -/
def rollback_block (lb : List Char) (st : EntityState) (delete_empty_loopbacks : Bool) :
    List (List Char) :=
  if !st.exs then ["no interface ".toList ++ lb]
  else if delete_empty_loopbacks && is_empty_loopback st.lines then
    ["no interface ".toList ++ lb]
  else
    ["interface ".toList ++ lb] ++
      [match st.description with
       | some d => if d.isEmpty then "no description".toList else "description ".toList ++ d
       | none => "no description".toList]

/-- Python dict lookup `before_states[lb]`, on an association-list model of
the dict: the snapshot stored under the first matching key, `none` when the
key is absent (a `KeyError` in the source). -/
def dictGet (m : List (List Char × EntityState)) (k : List Char) : Option EntityState :=
  (m.find? (fun p => p.1 == k)).map (fun p => p.2)

/-- The function `generate_rollback_for_pairs` (lines 174-208): for every target pair in
input order, look up the pre-change snapshot and append that change's
rollback block.  A missing snapshot (`KeyError`) makes the whole result
`none`. -/
def generate_rollback_for_pairs (before_states : List (List Char × EntityState))
    (target_pairs : List (List Char × List Char)) (delete_empty_loopbacks : Bool) :
    Option (List (List Char)) :=
  match target_pairs with
  | [] => some []
  | (lb, _) :: rest =>
    match dictGet before_states lb with
    | none => none
    | some st =>
      (generate_rollback_for_pairs before_states rest delete_empty_loopbacks).map
        (fun tail => rollback_block lb st delete_empty_loopbacks ++ tail)

/-- Python `"\n".join(cmds)`: the commands separated by single line feeds. -/
def joinNl : List (List Char) → List Char
  | [] => []
  | [c] => c
  | c :: cs => c ++ '\n' :: joinNl cs

/-- Python `ln.rstrip("\n")`: drop trailing line feeds only. -/
def rstripNl (l : List Char) : List Char := (l.reverse.dropWhile (fun c => c = '\n')).reverse

/-- The function `_save_commands_to_file` (lines 357-359), as the text written to the
rollback file: the commands joined with line feeds plus a trailing one. -/
def _save_commands_to_file (cmds : List (List Char)) : List Char :=
  joinNl cmds ++ ['\n']

/-- The function `_read_commands_from_file` (lines 362-364), as a function of the file's
text: iterate the lines (text mode, so universal newlines apply), keep those
that are not blank, and strip each kept line's trailing line feed. -/
def _read_commands_from_file (text : List Char) : List (List Char) :=
  ((splitNl (normNl text)).filter (fun ln => !(pyStrip ln).isEmpty)).map rstripNl

/-- The per-change rollback block exactly as claim C1 words it: destroy when
the entity did not exist or (with `deleteTrivial`) its stanza is trivial;
otherwise open the entity and set the old attribute when `attributeValue`
was present, clearing it only when it was absent. -/
def claim_block_spec (lb : List Char) (st : EntityState) (deleteTrivial : Bool) :
    List (List Char) :=
  if !st.exs then ["no interface ".toList ++ lb]
  else if deleteTrivial && is_empty_loopback st.lines then
    ["no interface ".toList ++ lb]
  else
    ["interface ".toList ++ lb] ++
      [match st.description with
       | some d => "description ".toList ++ d
       | none => "no description".toList]

/-- Claim C7: the classifier `is_empty_loopback` returns true exactly when every sub-line
is blank (the empty string, Python falsiness) or begins with the
`description ` marker; in particular the empty sequence and a lone
description line are trivial, and any other content line is not. -/
theorem c7_is_empty_loopback_iff :
    (∀ l : List (List Char), is_empty_loopback l = true ↔
      ∀ ln ∈ l, ln = [] ∨ ("description ".toList).isPrefixOf ln = true) ∧
    is_empty_loopback [] = true ∧
    is_empty_loopback ["description X".toList] = true ∧
    is_empty_loopback ["description X".toList, "mtu 9000".toList] = false := by
  refine ⟨?_, by decide, by decide, by decide⟩
  intro l
  cases l with
  | nil => simp [is_empty_loopback]
  | cons a t => simp [is_empty_loopback, List.all_eq_true, List.isEmpty_iff]

/-- Claim C9: any snapshot produced by `get_interface_state` with
`exists = false` has no description and no sub-lines. -/
theorem c9_absent_snapshot_is_blank (text : List Char)
    (h : (get_interface_state text).exs = false) :
    (get_interface_state text).description = none ∧ (get_interface_state text).lines = [] := by
  revert h
  unfold get_interface_state
  split
  · intro _; exact ⟨rfl, rfl⟩
  · split
    · intro h; simp at h
    · intro _; exact ⟨rfl, rfl⟩

/-- Witness for C9 at a concrete probe text that yields no stanza. -/
theorem c9_absent_snapshot_is_blank_witness :
    (get_interface_state ("% No such configuration".toList)).description = none ∧
      (get_interface_state ("% No such configuration".toList)).lines = [] :=
  c9_absent_snapshot_is_blank ("% No such configuration".toList) (by decide)

/-- Claim C10: in the restore branch, a present-but-empty prior description
is cleared with `no description`, exactly as an absent one would be. -/
theorem c10_blank_description_cleared (lb : List Char) (st : EntityState) (dT : Bool)
    (hex : st.exs = true) (hd : st.description = some [])
    (hnd : (dT && is_empty_loopback st.lines) = false) :
    rollback_block lb st dT = ["interface ".toList ++ lb, "no description".toList] := by
  unfold rollback_block
  rw [hex, hd, hnd]
  simp

/-- Witness for C10 on a concrete non-trivial snapshot with an empty
recorded description. -/
theorem c10_blank_description_cleared_witness :
    rollback_block ("Loopback1".toList) ⟨true, some [], ["mtu 9000".toList]⟩ true =
      ["interface ".toList ++ "Loopback1".toList, "no description".toList] :=
  c10_blank_description_cleared ("Loopback1".toList) ⟨true, some [], ["mtu 9000".toList]⟩ true
    rfl rfl (by decide)

/-- Counterexample to claim C1 as stated: for a snapshot whose
`attributeValue` is present but empty (and a non-trivial stanza), the code
emits the clear-attribute command, not the set-attribute command the claim
predicts for every present value. -/
theorem c1_three_way_rule_cex :
    rollback_block ("Loopback1".toList) ⟨true, some [], ["mtu 9000".toList]⟩ true =
      ["interface Loopback1".toList, "no description".toList] ∧
    claim_block_spec ("Loopback1".toList) ⟨true, some [], ["mtu 9000".toList]⟩ true =
      ["interface Loopback1".toList, "description ".toList] ∧
    rollback_block ("Loopback1".toList) ⟨true, some [], ["mtu 9000".toList]⟩ true ≠
      claim_block_spec ("Loopback1".toList) ⟨true, some [], ["mtu 9000".toList]⟩ true := by
  decide

/-- Claim C1 (amended): the three-way rollback rule, with the restore
branch setting the old attribute only when it was present and non-empty,
and clearing it when it was absent or empty. -/
theorem c1_three_way_rule_amended (lb : List Char) (st : EntityState) (dT : Bool) :
    (st.exs = false → rollback_block lb st dT = ["no interface ".toList ++ lb]) ∧
    (st.exs = true → (dT && is_empty_loopback st.lines) = true →
      rollback_block lb st dT = ["no interface ".toList ++ lb]) ∧
    (st.exs = true → (dT && is_empty_loopback st.lines) = false →
      (∀ d, st.description = some d → d ≠ [] →
        rollback_block lb st dT = ["interface ".toList ++ lb, "description ".toList ++ d]) ∧
      ((st.description = none ∨ st.description = some []) →
        rollback_block lb st dT = ["interface ".toList ++ lb, "no description".toList])) := by
  refine ⟨fun hex => ?_, fun hex htr => ?_, fun hex htr => ⟨fun d hd hne => ?_, fun hd => ?_⟩⟩
  · simp [rollback_block, hex]
  · simp [rollback_block, hex, htr]
  · have : d.isEmpty = false := by
      cases d with
      | nil => exact absurd rfl hne
      | cons c t => rfl
    simp [rollback_block, hex, htr, hd, this]
  · rcases hd with hd | hd <;> simp [rollback_block, hex, htr, hd]

/-- Witness for C1 (amended) at a concrete absent-entity snapshot. -/
theorem c1_three_way_rule_amended_witness :
    rollback_block ("Loopback9".toList) ⟨false, none, []⟩ true =
      ["no interface ".toList ++ "Loopback9".toList] :=
  (c1_three_way_rule_amended ("Loopback9".toList) ⟨false, none, []⟩ true).1 rfl

theorem probeSubs_snd (ls : List (List Char)) (d : Option (List Char)) :
    (probeSubs ls d).2 = ls.map pyLstrip := by
  induction ls generalizing d with
  | nil => rfl
  | cons a t ih => simp [probeSubs, ih]

theorem probeSubs_fst_eq_foldl (ls : List (List Char)) (d : Option (List Char)) :
    (probeSubs ls d).1 = ls.foldl
      (fun acc ln =>
        if ("description ".toList).isPrefixOf (pyLstrip ln) then
          some (pyStrip ((pyLstrip ln).drop 12))
        else acc) d := by
  induction ls generalizing d with
  | nil => rfl
  | cons a t ih => simp [probeSubs, ih]

theorem foldl_overwrite_getLast {α β : Type} (c : α → Bool) (v : α → β) (ls : List α)
    (d : Option β) :
    ls.foldl (fun acc x => if c x then some (v x) else acc) d =
      (((ls.filter c).map v).getLast?).or d := by
  induction ls generalizing d with
  | nil => simp [Option.or]
  | cons a t ih =>
    rw [List.foldl_cons, ih, List.filter_cons]
    by_cases hc : c a
    · simp only [hc, if_true]
      rw [List.map_cons]
      cases hm : (t.filter c).map v with
      | nil => simp [Option.or]
      | cons m ms =>
        rw [List.getLast?_cons_cons]
        cases hlast : (m :: ms).getLast? with
        | none => exact absurd (List.getLast?_eq_none_iff.mp hlast) (by simp)
        | some w => simp [Option.or]
    · simp [hc]

theorem filterMap_ite {α β : Type} (c : α → Bool) (v : α → β) (ls : List α) :
    ls.filterMap (fun x => if c x then some (v x) else none) = (ls.filter c).map v := by
  induction ls with
  | nil => rfl
  | cons a t ih => by_cases hc : c a <;> simp [hc, ih]

/-- Counterexample to claim C2 as stated: with two description sub-lines the
probe records the remainder of the second (last) one, not the first. -/
theorem c2_first_description_wins_cex :
    (get_interface_state
        ("interface Loopback1\n description A\n description B".toList)).description =
      some ("B".toList) ∧
    (get_interface_state
        ("interface Loopback1\n description A\n description B".toList)).description ≠
      some ("A".toList) := by
  decide

/-- Claim C2 (amended): the recorded `attributeValue` comes from the LAST sub-line that
begins with the description marker (each match overwrites the previous
one); it is the trimmed remainder of that line, and `none` when no sub-line
matches. -/
theorem c2_last_description_wins (text : List Char) :
    (get_interface_state text).description =
      ((get_interface_state text).lines.filterMap
        (fun raw =>
          if ("description ".toList).isPrefixOf raw then some (pyStrip (raw.drop 12))
          else none)).getLast? := by
  unfold get_interface_state
  split
  · rfl
  · split
    · rw [probeSubs_snd, probeSubs_fst_eq_foldl, List.filterMap_map,
        foldl_overwrite_getLast
          (fun ln => ("description ".toList).isPrefixOf (pyLstrip ln))
          (fun ln => pyStrip ((pyLstrip ln).drop 12)), Option.or_none]
      rw [show ((fun raw =>
          if ("description ".toList).isPrefixOf raw then some (pyStrip (raw.drop 12))
          else none) ∘ pyLstrip) = (fun ln =>
          if ("description ".toList).isPrefixOf (pyLstrip ln) then
            some (pyStrip ((pyLstrip ln).drop 12))
          else none) from rfl]
      rw [filterMap_ite
          (fun ln => ("description ".toList).isPrefixOf (pyLstrip ln))
          (fun ln => pyStrip ((pyLstrip ln).drop 12))]
    · rfl

/-- Claim C3: a successfully synthesized rollback plan is exactly the
concatenation, in input batch order, of the per-change blocks, and the
result depends on the snapshot map only through key lookup, so any two
maps that answer every lookup identically (e.g. the same entries in any
iteration order) give the identical plan. -/
theorem c3_plan_follows_batch_order (m1 m2 : List (List Char × EntityState))
    (pairs : List (List Char × List Char)) (dT : Bool) (cs : List (List Char))
    (hlook : ∀ k, dictGet m1 k = dictGet m2 k)
    (hgen : generate_rollback_for_pairs m1 pairs dT = some cs) :
    generate_rollback_for_pairs m2 pairs dT = some cs ∧
    cs = pairs.flatMap
      (fun p => rollback_block p.1 ((dictGet m1 p.1).getD ⟨false, none, []⟩) dT) := by
  induction pairs generalizing cs with
  | nil =>
    simp only [generate_rollback_for_pairs, Option.some.injEq] at hgen
    subst hgen
    exact ⟨rfl, rfl⟩
  | cons hd tl ih =>
    obtain ⟨lb, dsc⟩ := hd
    simp only [generate_rollback_for_pairs] at hgen ⊢
    cases hst : dictGet m1 lb with
    | none => rw [hst] at hgen; exact absurd hgen (by simp)
    | some st =>
      rw [hst] at hgen
      rw [← hlook lb, hst]
      cases htl : generate_rollback_for_pairs m1 tl dT with
      | none => rw [htl] at hgen; exact absurd hgen (by simp)
      | some tailcs =>
        rw [htl] at hgen
        simp only [Option.map_some', Option.some.injEq] at hgen
        obtain ⟨ih1, ih2⟩ := ih tailcs htl
        rw [ih1]
        constructor
        · simp [hgen]
        · rw [← hgen, List.flatMap_cons, ← ih2, hst]
          rfl

/-- Witness for C3: a two-change batch checked against two snapshot maps
holding the same entries in opposite iteration orders. -/
theorem c3_plan_follows_batch_order_witness :
    generate_rollback_for_pairs
        [(("Loopback2".toList), ⟨true, some ("old".toList), ["description old".toList]⟩),
         (("Loopback1".toList), ⟨false, none, []⟩)]
        [(("Loopback1".toList), ("a".toList)), (("Loopback2".toList), ("b".toList))] true =
      some ["no interface Loopback1".toList, "no interface Loopback2".toList] ∧
    ["no interface Loopback1".toList, "no interface Loopback2".toList] =
      [(("Loopback1".toList), ("a".toList)), (("Loopback2".toList), ("b".toList))].flatMap
        (fun p => rollback_block p.1
          ((dictGet
              [(("Loopback1".toList), ⟨false, none, []⟩),
               (("Loopback2".toList), ⟨true, some ("old".toList), ["description old".toList]⟩)]
              p.1).getD ⟨false, none, []⟩) true) :=
  c3_plan_follows_batch_order
    [(("Loopback1".toList), ⟨false, none, []⟩),
     (("Loopback2".toList), ⟨true, some ("old".toList), ["description old".toList]⟩)]
    [(("Loopback2".toList), ⟨true, some ("old".toList), ["description old".toList]⟩),
     (("Loopback1".toList), ⟨false, none, []⟩)]
    [(("Loopback1".toList), ("a".toList)), (("Loopback2".toList), ("b".toList))] true
    ["no interface Loopback1".toList, "no interface Loopback2".toList]
    (fun k => by
      by_cases h1 : ("Loopback1".toList) = k
      · subst h1; decide
      · by_cases h2 : ("Loopback2".toList) = k
        · subst h2; decide
        · simp only [dictGet]
          rw [List.find?_eq_none.mpr, List.find?_eq_none.mpr]
          · intro x hx
            simp only [List.mem_cons, List.mem_singleton, List.not_mem_nil] at hx
            rcases hx with hx | hx | hx
            · subst hx; simp only [Bool.not_eq_true, beq_eq_false_iff_ne]; exact h2
            · subst hx; simp only [Bool.not_eq_true, beq_eq_false_iff_ne]; exact h1
            · exact absurd hx (by simp)
          · intro x hx
            simp only [List.mem_cons, List.mem_singleton, List.not_mem_nil] at hx
            rcases hx with hx | hx | hx
            · subst hx; simp only [Bool.not_eq_true, beq_eq_false_iff_ne]; exact h1
            · subst hx; simp only [Bool.not_eq_true, beq_eq_false_iff_ne]; exact h2
            · exact absurd hx (by simp))
    (by decide)

theorem dropWhile_eq_self_of_false {α : Type} (p : α → Bool) (l : List α)
    (h : ∀ x ∈ l, p x = false) : l.dropWhile p = l := by
  cases l with
  | nil => rfl
  | cons a t =>
    rw [List.dropWhile_cons]
    simp [h a (List.mem_cons_self a t)]

theorem rstripNl_eq_self (l : List Char) (h : '\n' ∉ l) : rstripNl l = l := by
  unfold rstripNl
  rw [dropWhile_eq_self_of_false, List.reverse_reverse]
  intro x hx
  rw [List.mem_reverse] at hx
  simp only [decide_eq_false_iff_not]
  exact fun e => h (e ▸ hx)

theorem normNl_eq_self (l : List Char) (h : '\r' ∉ l) : normNl l = l := by
  induction l with
  | nil => rfl
  | cons c rest ih =>
    have hc : ¬(c = '\r') := fun e => h (by simp [e])
    have e : normNl (c :: rest) = c :: normNl rest := by
      rw [normNl.eq_def]
      simp [hc]
    rw [e, ih (fun m => h (List.mem_cons_of_mem _ m))]

theorem splitNl_ne_nil (l : List Char) : splitNl l ≠ [] := by
  cases l with
  | nil => simp [splitNl]
  | cons c rest =>
    rw [splitNl]
    cases h : splitNl rest with
    | nil => simp
    | cons a as => by_cases hc : c = '\n' <;> simp [hc]

theorem splitNl_append_nl (l t : List Char) (h : '\n' ∉ l) :
    splitNl (l ++ '\n' :: t) = l :: splitNl t := by
  induction l with
  | nil =>
    simp only [List.nil_append]
    rw [splitNl]
    cases hs : splitNl t with
    | nil => exact absurd hs (splitNl_ne_nil t)
    | cons a as => simp
  | cons c rest ih =>
    have hc : ¬(c = '\n') := fun e => h (by simp [e])
    have ih2 := ih (fun m => h (List.mem_cons_of_mem _ m))
    rw [List.cons_append, splitNl, ih2]
    simp [hc]

theorem mem_joinNl (x : Char) (cmds : List (List Char)) (h : x ∈ joinNl cmds) :
    x = '\n' ∨ ∃ c ∈ cmds, x ∈ c := by
  induction cmds with
  | nil => simp [joinNl] at h
  | cons a t ih =>
    cases t with
    | nil => exact Or.inr ⟨a, by simp, by simpa [joinNl] using h⟩
    | cons b u =>
      have e : joinNl (a :: b :: u) = a ++ '\n' :: joinNl (b :: u) := rfl
      rw [e, List.mem_append] at h
      rcases h with h | h
      · exact Or.inr ⟨a, by simp, h⟩
      · rcases List.mem_cons.mp h with h | h
        · exact Or.inl h
        · rcases ih h with h | ⟨c, hc, hx⟩
          · exact Or.inl h
          · exact Or.inr ⟨c, by simp [hc], hx⟩

theorem splitNl_save (cmds : List (List Char)) (hnl : ∀ c ∈ cmds, '\n' ∉ c)
    (hne : cmds ≠ []) :
    splitNl (_save_commands_to_file cmds) = cmds ++ [[]] := by
  induction cmds with
  | nil => exact absurd rfl hne
  | cons a t ih =>
    cases t with
    | nil =>
      have e : _save_commands_to_file [a] = a ++ '\n' :: [] := rfl
      rw [e, splitNl_append_nl a [] (hnl a (by simp))]
      rfl
    | cons b u =>
      have e : _save_commands_to_file (a :: b :: u) =
          a ++ '\n' :: _save_commands_to_file (b :: u) := by
        unfold _save_commands_to_file
        have e2 : joinNl (a :: b :: u) = a ++ '\n' :: joinNl (b :: u) := rfl
        rw [e2]
        simp
      rw [e, splitNl_append_nl a _ (hnl a (by simp)),
        ih (fun c hc => hnl c (List.mem_cons_of_mem _ hc)) (by simp)]
      rfl

/-- Counterexample to claim C4 as stated: a whitespace-only command is
non-empty and has no embedded line terminator, yet it is discarded by the
decoder's blank-line filter, so the round trip loses it. -/
theorem c4_round_trip_cex :
    _read_commands_from_file (_save_commands_to_file [" ".toList]) = [] ∧
    ([] : List (List Char)) ≠ [" ".toList] := by
  decide

/-- Claim C4 (amended): for commands that contain a non-whitespace
character (non-blank) and no embedded line terminator (no LF, no CR),
decoding the encoded artifact returns exactly the original sequence. -/
theorem c4_round_trip (cmds : List (List Char))
    (h : ∀ c ∈ cmds, ('\n' ∉ c ∧ '\r' ∉ c) ∧ pyStrip c ≠ []) :
    _read_commands_from_file (_save_commands_to_file cmds) = cmds := by
  rcases cmds with _ | ⟨a, t⟩
  · decide
  · have hnr : '\r' ∉ _save_commands_to_file (a :: t) := by
      intro hm
      unfold _save_commands_to_file at hm
      rcases List.mem_append.mp hm with hm | hm
      · rcases mem_joinNl '\r' (a :: t) hm with e | ⟨c, hc, hx⟩
        · exact absurd e (by decide)
        · exact (h c hc).1.2 hx
      · simp at hm
    have hnl : ∀ c ∈ a :: t, '\n' ∉ c := fun c hc => (h c hc).1.1
    unfold _read_commands_from_file
    rw [normNl_eq_self _ hnr, splitNl_save (a :: t) hnl (by simp), List.filter_append]
    have hfk : (a :: t).filter (fun ln => !(pyStrip ln).isEmpty) = a :: t :=
      List.filter_eq_self.mpr (fun x hx => by
        simpa [List.isEmpty_iff] using (h x hx).2)
    have hfe : ([[]] : List (List Char)).filter (fun ln => !(pyStrip ln).isEmpty) = [] := by
      decide
    rw [hfk, hfe, List.append_nil,
      List.map_congr_left (fun x hx => rstripNl_eq_self x ((h x hx).1.1))]
    exact List.map_id' (a :: t)

/-- Witness for C4 (amended) on a concrete two-command sequence. -/
theorem c4_round_trip_witness :
    _read_commands_from_file
        (_save_commands_to_file ["interface Loopback1".toList, "no description".toList]) =
      ["interface Loopback1".toList, "no description".toList] :=
  c4_round_trip ["interface Loopback1".toList, "no description".toList] (by decide)

/-- Counterexample to claim C5 as stated: a command with an embedded line
feed is not rejected at encode time (the source has no validation and no
InvalidCommand error); it is written verbatim, and the artifact decodes to
the two halves. -/
theorem c5_no_encode_rejection_cex :
    _save_commands_to_file ["a\nb".toList] = "a\nb\n".toList ∧
    _read_commands_from_file (_save_commands_to_file ["a\nb".toList]) =
      ["a".toList, "b".toList] ∧
    _read_commands_from_file (_save_commands_to_file ["a\nb".toList]) ≠ ["a\nb".toList] := by
  decide

/-- Claim C5 (amended): encoding performs no validation; a command with an
embedded line feed is written verbatim into the artifact, which then
decodes to the command's two halves rather than failing. -/
theorem c5_embedded_newline_splits (a b : List Char)
    (ha : '\n' ∉ a ∧ '\r' ∉ a) (hb : '\n' ∉ b ∧ '\r' ∉ b)
    (hsa : pyStrip a ≠ []) (hsb : pyStrip b ≠ []) :
    _save_commands_to_file [a ++ '\n' :: b] = (a ++ '\n' :: b) ++ ['\n'] ∧
    _read_commands_from_file (_save_commands_to_file [a ++ '\n' :: b]) = [a, b] := by
  refine ⟨rfl, ?_⟩
  have e : _save_commands_to_file [a ++ '\n' :: b] = a ++ '\n' :: (b ++ ['\n']) := by
    unfold _save_commands_to_file joinNl
    simp
  have hnr : '\r' ∉ a ++ '\n' :: (b ++ ['\n']) := by
    intro hm
    rcases List.mem_append.mp hm with hm | hm
    · exact ha.2 hm
    · rcases List.mem_cons.mp hm with hm | hm
      · exact absurd hm (by decide)
      · rcases List.mem_append.mp hm with hm | hm
        · exact hb.2 hm
        · simp at hm
  unfold _read_commands_from_file
  rw [e, normNl_eq_self _ hnr, splitNl_append_nl a _ ha.1, splitNl_append_nl b [] hb.1]
  have hfa : (!(pyStrip a).isEmpty) = true := by simpa [List.isEmpty_iff] using hsa
  have hfb : (!(pyStrip b).isEmpty) = true := by simpa [List.isEmpty_iff] using hsb
  rw [show splitNl ([] : List Char) = [[]] from rfl]
  rw [List.filter_cons, if_pos hfa, List.filter_cons, if_pos hfb]
  rw [show ([[]] : List (List Char)).filter (fun ln => !(pyStrip ln).isEmpty) = [] from by decide]
  rw [List.map_cons, List.map_cons, List.map_nil,
    rstripNl_eq_self a ha.1, rstripNl_eq_self b hb.1]

/-- Witness for C5 (amended) on a concrete command pair. -/
theorem c5_embedded_newline_splits_witness :
    _save_commands_to_file [("interface X".toList) ++ '\n' :: ("shutdown".toList)] =
      (("interface X".toList) ++ '\n' :: ("shutdown".toList)) ++ ['\n'] ∧
    _read_commands_from_file
        (_save_commands_to_file [("interface X".toList) ++ '\n' :: ("shutdown".toList)]) =
      ["interface X".toList, "shutdown".toList] :=
  c5_embedded_newline_splits ("interface X".toList) ("shutdown".toList)
    (by decide) (by decide) (by decide) (by decide)

theorem digit_mem (c : Char) (h : ("0123456789".toList).contains c = true) :
    c ∈ "0123456789".toList := by
  simpa using h

theorem digit_not_ws (c : Char) (h : ("0123456789".toList).contains c = true) :
    c.isWhitespace = false := by
  have hm := digit_mem c h
  fin_cases hm <;> decide

theorem digit_toLower (c : Char) (h : ("0123456789".toList).contains c = true) :
    Char.toLower c = c := by
  have hm := digit_mem c h
  fin_cases hm <;> decide

theorem digit_ne_l (c : Char) (h : ("0123456789".toList).contains c = true) :
    ('l' == c) = false := by
  have hm := digit_mem c h
  fin_cases hm <;> decide

theorem loopback_char_not_ws (c : Char) (h : Char.toLower c ∈ "loopback".toList) :
    c.isWhitespace = false := by
  by_contra hw
  rw [Bool.not_eq_false] at hw
  have hd : ((c = ' ' ∨ c = '\t') ∨ c = '\r') ∨ c = '\n' := by
    simpa [Char.isWhitespace] using hw
  rcases hd with ((e | e) | e) | e <;> subst e <;> exact absurd h (by decide)

theorem pyStrip_eq_self (l : List Char) (h : ∀ c ∈ l, c.isWhitespace = false) :
    pyStrip l = l := by
  unfold pyStrip pyLstrip pyRstrip
  rw [dropWhile_eq_self_of_false _ _ h, dropWhile_eq_self_of_false, List.reverse_reverse]
  intro x hx
  exact h x (List.mem_reverse.mp hx)

theorem isPrefixOf_append {α : Type} [BEq α] [LawfulBEq α] (l t : List α) :
    l.isPrefixOf (l ++ t) = true := by
  induction l with
  | nil => simp [List.isPrefixOf]
  | cons a as ih => simp [List.isPrefixOf, ih]

theorem isPrefixOf_iff_append {α : Type} [BEq α] [LawfulBEq α] (l m : List α) :
    l.isPrefixOf m = true ↔ ∃ t, m = l ++ t := by
  induction l generalizing m with
  | nil => simp [List.isPrefixOf]
  | cons a as ih =>
    cases m with
    | nil => simp [List.isPrefixOf]
    | cons b bs =>
      rw [show ((a :: as).isPrefixOf (b :: bs)) = (a == b && as.isPrefixOf bs) from rfl]
      simp only [Bool.and_eq_true, beq_iff_eq, ih, List.cons_append, List.cons.injEq]
      constructor
      · rintro ⟨e, t, ht⟩
        exact ⟨t, e.symm, ht⟩
      · rintro ⟨t, e, ht⟩
        exact ⟨e.symm, t, ht⟩

theorem pyIsdigit_iff (l : List Char) :
    pyIsdigit l = true ↔
      l ≠ [] ∧ l.all (fun c => ("0123456789".toList).contains c) = true := by
  simp [pyIsdigit, List.isEmpty_iff]

theorem normalize_eval_prefix_core (raw p s : List Char) (hst : pyStrip raw = p ++ s)
    (hp : p.map Char.toLower = "loopback".toList) (hs1 : s ≠ [])
    (hs2 : s.all (fun c => ("0123456789".toList).contains c) = true) :
    normalize_loopback raw =
      some ("Loopback".toList ++ (Nat.repr (digitsToNat s)).toList) := by
  have hplen : p.length = 8 := by
    have h := congrArg List.length hp
    rw [List.length_map] at h
    exact h.trans rfl
  have hpref : ("loopback".toList).isPrefixOf ((p ++ s).map Char.toLower) = true := by
    rw [List.map_append, hp]
    exact isPrefixOf_append _ _
  have hdrop : (p ++ s).drop 8 = s := by
    rw [← hplen]
    exact List.drop_left p s
  have hdig : pyIsdigit s = true := (pyIsdigit_iff s).mpr ⟨hs1, hs2⟩
  simp only [normalize_loopback]
  rw [hst, hpref, if_pos rfl, hdrop, hdig, if_pos rfl]

theorem normalize_eval_bare_core (raw s : List Char) (hst : pyStrip raw = s) (hs1 : s ≠ [])
    (hs2 : s.all (fun c => ("0123456789".toList).contains c) = true) :
    normalize_loopback raw =
      some ("Loopback".toList ++ (Nat.repr (digitsToNat s)).toList) := by
  have hall := List.all_eq_true.mp hs2
  have hdig : pyIsdigit s = true := (pyIsdigit_iff s).mpr ⟨hs1, hs2⟩
  simp only [normalize_loopback]
  rw [hst]
  cases s with
  | nil => exact absurd rfl hs1
  | cons c cs =>
    have hlow : Char.toLower c = c := digit_toLower c (hall c (by simp))
    have hne : ('l' == c) = false := digit_ne_l c (hall c (by simp))
    have hnp : ("loopback".toList).isPrefixOf ((c :: cs).map Char.toLower) = false := by
      rw [List.map_cons, hlow,
        show ("loopback".toList) = 'l' :: ("oopback".toList) from rfl,
        show (('l' :: ("oopback".toList)).isPrefixOf (c :: cs.map Char.toLower)) =
          (('l' == c) && ("oopback".toList).isPrefixOf (cs.map Char.toLower)) from rfl,
        hne, Bool.false_and]
    rw [hnp, if_neg (by simp), hdig, if_pos rfl]

/-- Claim C6: all valid raw identifiers that differ only in the
zero-padding of the integer suffix or in the case of the kind prefix (and
the bare-integer spellings of the same number) normalize to the one
canonical `Loopback` key carrying the integer without leading zeros. -/
theorem c6_normalize_collapses_variants (p1 p2 s1 s2 : List Char)
    (hp1 : p1.map Char.toLower = "loopback".toList)
    (hp2 : p2.map Char.toLower = "loopback".toList)
    (hs1 : s1 ≠ []) (hd1 : s1.all (fun c => ("0123456789".toList).contains c) = true)
    (hs2 : s2 ≠ []) (hd2 : s2.all (fun c => ("0123456789".toList).contains c) = true)
    (hv : digitsToNat s1 = digitsToNat s2) :
    normalize_loopback (p1 ++ s1) =
      some ("Loopback".toList ++ (Nat.repr (digitsToNat s1)).toList) ∧
    normalize_loopback (p2 ++ s2) = normalize_loopback (p1 ++ s1) ∧
    normalize_loopback s1 = normalize_loopback (p1 ++ s1) ∧
    normalize_loopback s2 = normalize_loopback (p1 ++ s1) := by
  have hnows1 : ∀ c ∈ p1 ++ s1, c.isWhitespace = false := by
    intro c hc
    rcases List.mem_append.mp hc with hc | hc
    · exact loopback_char_not_ws c (hp1 ▸ List.mem_map_of_mem Char.toLower hc)
    · exact digit_not_ws c (List.all_eq_true.mp hd1 c hc)
  have hnows2 : ∀ c ∈ p2 ++ s2, c.isWhitespace = false := by
    intro c hc
    rcases List.mem_append.mp hc with hc | hc
    · exact loopback_char_not_ws c (hp2 ▸ List.mem_map_of_mem Char.toLower hc)
    · exact digit_not_ws c (List.all_eq_true.mp hd2 c hc)
  have e1 := normalize_eval_prefix_core (p1 ++ s1) p1 s1 (pyStrip_eq_self _ hnows1) hp1 hs1 hd1
  have e2 := normalize_eval_prefix_core (p2 ++ s2) p2 s2 (pyStrip_eq_self _ hnows2) hp2 hs2 hd2
  have e3 := normalize_eval_bare_core s1 s1
    (pyStrip_eq_self _ (fun c hc => digit_not_ws c (List.all_eq_true.mp hd1 c hc))) hs1 hd1
  have e4 := normalize_eval_bare_core s2 s2
    (pyStrip_eq_self _ (fun c hc => digit_not_ws c (List.all_eq_true.mp hd2 c hc))) hs2 hd2
  refine ⟨e1, ?_, ?_, ?_⟩
  · rw [e1, e2, hv]
  · rw [e1, e3]
  · rw [e1, e4, hv]

/-- Witness for C6: the spellings `LOOPBACK7`, `Loopback007`, `7`, `007` collapse
to the canonical key `Loopback7`. -/
theorem c6_normalize_collapses_variants_witness :
    normalize_loopback ("LOOPBACK".toList ++ "7".toList) =
      some ("Loopback".toList ++ (Nat.repr (digitsToNat ("7".toList))).toList) ∧
    normalize_loopback ("Loopback".toList ++ "007".toList) =
      normalize_loopback ("LOOPBACK".toList ++ "7".toList) ∧
    normalize_loopback ("7".toList) = normalize_loopback ("LOOPBACK".toList ++ "7".toList) ∧
    normalize_loopback ("007".toList) = normalize_loopback ("LOOPBACK".toList ++ "7".toList) :=
  c6_normalize_collapses_variants ("LOOPBACK".toList) ("Loopback".toList)
    ("7".toList) ("007".toList) (by decide) (by decide) (by decide) (by decide)
    (by decide) (by decide) (by decide)

/-- Claim C8: normalize fails exactly on the raw identifiers whose stripped
form is neither a case variant of the kind prefix followed by a non-empty
all-digit suffix nor a bare non-empty all-digit string; in particular any
input lacking a digit suffix or a digit body is rejected (the source's
`ValueError`, modelled as `none`). -/
theorem c8_normalize_rejects_invalid (raw : List Char) :
    normalize_loopback raw = none ↔
      (¬ ∃ p s, pyStrip raw = p ++ s ∧ p.map Char.toLower = "loopback".toList ∧
        s ≠ [] ∧ s.all (fun c => ("0123456789".toList).contains c) = true) ∧
      ¬ (pyStrip raw ≠ [] ∧
        (pyStrip raw).all (fun c => ("0123456789".toList).contains c) = true) := by
  constructor
  · intro hnone
    constructor
    · rintro ⟨p, s, hdecomp, hp, hs1, hs2⟩
      rw [normalize_eval_prefix_core raw p s hdecomp hp hs1 hs2] at hnone
      exact absurd hnone (by simp)
    · rintro ⟨hb1, hb2⟩
      rw [normalize_eval_bare_core raw (pyStrip raw) rfl hb1 hb2] at hnone
      exact absurd hnone (by simp)
  · rintro ⟨hna, hnb⟩
    simp only [normalize_loopback]
    by_cases hb1 : ("loopback".toList).isPrefixOf ((pyStrip raw).map Char.toLower) = true
    · by_cases hd : pyIsdigit ((pyStrip raw).drop 8) = true
      · exfalso
        obtain ⟨t, ht⟩ := (isPrefixOf_iff_append _ _).mp hb1
        obtain ⟨hs1, hs2⟩ := (pyIsdigit_iff _).mp hd
        refine hna ⟨(pyStrip raw).take 8, (pyStrip raw).drop 8,
          (List.take_append_drop 8 (pyStrip raw)).symm, ?_, hs1, hs2⟩
        rw [List.map_take, ht,
          show (8 : Nat) = ("loopback".toList).length from rfl, List.take_left]
      · rw [hb1, if_pos rfl]
        rw [Bool.not_eq_true] at hd
        rw [hd, if_neg (by simp)]
    · rw [Bool.not_eq_true] at hb1
      rw [hb1, if_neg (by simp)]
      by_cases hd : pyIsdigit (pyStrip raw) = true
      · exact absurd ((pyIsdigit_iff _).mp hd) hnb
      · rw [Bool.not_eq_true] at hd
        rw [hd, if_neg (by simp)]
